import Mathlib

/-!
Verification of the knowledge-graph preprocessing and filtered link-prediction
evaluation pipeline of this repository (src/core/knowledge_graph.py and
src/executer.py).

Shallow-embedding conventions:

* A pandas/dask DataFrame of string triples is a `List StrTriple` in row
  order; an integer-indexed numpy array is a `List IdxTriple`.
* A raised Python exception is an `Except PyError` error value; file I/O is
  modelled by explicit optional artifacts.
* Model scores (Python floats) are modelled by integers, and `-np.Inf` by
  `⊥ : WithBot ℤ`; only the ordering of scores is consumed by the ranking
  code.  `torch.sort(..., descending=True)` is modelled as a stable
  descending sort (ties keep their original index order).
* Helper functions that knowledge_graph.py and executer.py import from
  `static_funcs` / `sanity_checkers` are not part of src/; each such
  definition below carries a doc comment starting `Modelled from the spec:`.
-/

namespace DiceKG

/-- A raw triple of strings: one row of the (subject, relation, object)
DataFrame produced by the loader. -/
structure StrTriple where
  subj : String
  rel : String
  obj : String
deriving DecidableEq

/-- An indexed triple: one row of the integer-mapped array. -/
structure IdxTriple where
  subj : Nat
  rel : Nat
  obj : Nat
deriving DecidableEq

/-- The kinds of Python exception the modelled code can raise. -/
inductive PyError where
  | typeError
  | fileNotFound
  | keyError
  | assertionError
  | attributeError
deriving DecidableEq

/-- The three splits held by `KG` after `KG.load_read_process`
(knowledge_graph.py:303-322); `valid`/`test` are `none` when the split
directory is absent. -/
structure Splits where
  train : List StrTriple
  valid : Option (List StrTriple)
  test : Option (List StrTriple)

/-- `pd.unique`: the unique values of a 1-D array in order of first
appearance, modelled with an explicit accumulator of already-seen values. -/
def pdUniqueAux : List String → List String → List String
  | [], _ => []
  | x :: xs, seen =>
      if x ∈ seen then pdUniqueAux xs seen else x :: pdUniqueAux xs (x :: seen)

/-- `pd.unique` on a 1-D array. -/
def pdUnique (l : List String) : List String := pdUniqueAux l []

/-- `pd.DataFrame(data=np.arange(len(ordered_list)), index=ordered_list)`
(knowledge_graph.py:257, 265): each string of `ordered_list` is paired with
its position. -/
def withIdx : List String → Nat → List (String × Nat)
  | [], _ => []
  | x :: xs, n => (x, n) :: withIdx xs (n + 1)

/-- `self.df_str_kg[['subject', 'object']].values.ravel('K')`
(knowledge_graph.py:256).  `DataFrame.values` on a two-column same-dtype
selection returns the transpose of the internal (2, n) block, i.e. a
Fortran-ordered (n, 2) array, so raveling in memory order (`'K'`) yields the
entire subject column first and then the entire object column, not a
row-by-row scan. -/
def ravelK (df : List StrTriple) : List String :=
  df.map StrTriple.subj ++ df.map StrTriple.obj

/-- The entity vocabulary (knowledge_graph.py:256-257): position of first
appearance in the column-major ravel of the concatenated DataFrame. -/
def entity_to_idx (df : List StrTriple) : List (String × Nat) :=
  withIdx (pdUnique (ravelK df)) 0

/-- The relation vocabulary (knowledge_graph.py:264-267): a single Series
ravels in row order. -/
def relation_to_idx (df : List StrTriple) : List (String × Nat) :=
  withIdx (pdUnique (df.map StrTriple.rel)) 0

/-- Occurrences of `e` as subject or object of the training split:
`pd.concat([train['subject'], train['object']]).value_counts()`
(knowledge_graph.py:284). -/
def entityFrequency (train : List StrTriple) (e : String) : Nat :=
  (train.map StrTriple.subj ++ train.map StrTriple.obj).count e

/-- Occurrences of `r` in predicate position (knowledge_graph.py:285). -/
def relationFrequency (train : List StrTriple) (r : String) : Nat :=
  (train.map StrTriple.rel).count r

/-- `KG.remove_triples_from_train_with_condition` (knowledge_graph.py:274-301):
when a minimum frequency is configured, the low-frequency entity and relation
sets are computed once from the incoming training split (occurrence count
`≤ min_freq_for_vocab`), and rows whose subject, object, or relation falls in
those sets are dropped by three successive boolean-mask filters.  The source
also asserts `min_freq_for_vocab > 0`; the branch below is only consulted for
positive thresholds. -/
def remove_triples_from_train_with_condition (minFreq : Option Nat)
    (train : List StrTriple) : List StrTriple :=
  match minFreq with
  | none => train
  | some t =>
      (((train.filter
            (fun tr => !decide (entityFrequency train tr.subj ≤ t))).filter
          (fun tr => !decide (entityFrequency train tr.obj ≤ t))).filter
        (fun tr => !decide (relationFrequency train tr.rel ≤ t)))

/-- `pd.concat(x, ignore_index=True)` with `x = [train] (+ valid) (+ test)`
(knowledge_graph.py:243-250). -/
def concatSplits (train : List StrTriple)
    (valid test : Option (List StrTriple)) : List StrTriple :=
  train ++ valid.getD [] ++ test.getD []

/-- The data produced by `KG.sequential_vocabulary_construction`: the two
vocabularies and the (possibly pruned) training split that the method leaves
in `self.train_set`. -/
structure VocabResult where
  entityToIdx : List (String × Nat)
  relationToIdx : List (String × Nat)
  prunedTrain : List StrTriple
deriving DecidableEq

/-- `KG.sequential_vocabulary_construction` (knowledge_graph.py:224-272),
dataflow part: prune the training split, concatenate the available splits,
and build the two vocabularies from the concatenation.  (The serialization
side effects of the same method are modelled separately by
`sequential_vocabulary_construction_ser`.) -/
def sequential_vocabulary_construction (minFreq : Option Nat)
    (train : List StrTriple) (valid test : Option (List StrTriple)) :
    VocabResult :=
  let train' := remove_triples_from_train_with_condition minFreq train
  let df := concatSplits train' valid test
  ⟨entity_to_idx df, relation_to_idx df, train'⟩

/-- `None + '/...'` versus `path + '/...'`: adding a suffix to an optional
Python string; with `None` this raises `TypeError`. -/
def py_str_add : Option String → String → Except PyError String
  | none, _ => .error .typeError
  | some p, s => .ok (p ++ s)

/-- `KG.sequential_vocabulary_construction` (knowledge_graph.py:224-272) with
its serialization effects.  The writes at lines 260 and 270 are performed
unconditionally — unlike every other serialization in `KG.__init__`, they are
not guarded by `if path_for_serialization is not None` — so a run without a
configured storage location evaluates `None + '/entity_to_idx.gzip'` and
raises `TypeError`.  On success the returned list holds the written artifact
paths in write order. -/
def sequential_vocabulary_construction_ser (path : Option String)
    (minFreq : Option Nat) (train : List StrTriple)
    (valid test : Option (List StrTriple)) :
    Except PyError (VocabResult × List String) := do
  let train' := remove_triples_from_train_with_condition minFreq train
  let df := concatSplits train' valid test
  let e := entity_to_idx df
  let p1 ← py_str_add path "/entity_to_idx.gzip"
  let r := relation_to_idx df
  let p2 ← py_str_add path "/relation_to_idx.gzip"
  .ok (⟨e, r, train'⟩, [p1, p2])

/-- Modelled from the spec: `create_recipriocal_triples_from_dask` is imported
from `static_funcs`, which is not under src/.  Per §4.2 of the spec, for every
triple (s, p, o) it adds (o, p⁻¹, s), where p⁻¹ is a fresh synthetic relation
symbol deterministically derived from p by a fixed naming convention. -/
def create_recipriocal_triples_from_dask (ts : List StrTriple) :
    List StrTriple :=
  ts ++ ts.map (fun t => ⟨t.obj, t.rel ++ "_inverse", t.subj⟩)

/-- Modelled from the spec: `add_noisy_triples` is imported from
`static_funcs`, which is not under src/.  Per §4.2 of the spec, given a rate
`r` it appends `round(r × |train|)` triples drawn at random from the training
set's entity/relation strings; the random draw is abstracted into an explicit
`sampler` argument (spec §9 asks for exactly such an explicit seed/sampler). -/
def add_noisy_triples (sampler : Nat → StrTriple) (rate : ℚ)
    (train : List StrTriple) : List StrTriple :=
  train ++ (List.range (round (rate * train.length)).toNat).map sampler

/-- `KG.apply_reciprical_or_noise` (knowledge_graph.py:324-342): reciprocal
triples are added to the train split and to each present valid/test split
when both `add_reciprical` and `eval_model` are set; afterwards, when a noise
rate is configured, noisy triples are appended to the training split only. -/
def apply_reciprical_or_noise (addRec evalModel : Bool)
    (noiseRate : Option ℚ) (sampler : Nat → StrTriple) (s : Splits) :
    Splits :=
  let s1 :=
    if addRec && evalModel then
      ⟨create_recipriocal_triples_from_dask s.train,
        s.valid.map create_recipriocal_triples_from_dask,
        s.test.map create_recipriocal_triples_from_dask⟩
    else s
  match noiseRate with
  | some r => ⟨add_noisy_triples sampler r s1.train, s1.valid, s1.test⟩
  | none => s1

/-- `dict.__getitem__` on a vocabulary: a missing key raises `KeyError`. -/
def lookupIdx (m : List (String × Nat)) (s : String) : Except PyError Nat :=
  match m.lookup s with
  | some i => .ok i
  | none => .error .keyError

/-- Modelled from the spec: `index_triples` is imported from `static_funcs`,
which is not under src/.  Per §4.5 of the spec it substitutes each string of
a triple set with its vocabulary id, and any string absent from the relevant
vocabulary is a hard out-of-vocabulary error, never silently dropped. -/
def index_triples (e2i r2i : List (String × Nat)) (ts : List StrTriple) :
    Except PyError (List IdxTriple) :=
  ts.mapM (fun t => do
    let s ← lookupIdx e2i t.subj
    let p ← lookupIdx r2i t.rel
    let o ← lookupIdx e2i t.obj
    pure ⟨s, p, o⟩)

/-- The bound invariant on one indexed triple. -/
def within_bounds (ne nr : Nat) (t : IdxTriple) : Prop :=
  t.subj < ne ∧ t.obj < ne ∧ t.rel < nr

instance (ne nr : Nat) (t : IdxTriple) : Decidable (within_bounds ne nr t) :=
  inferInstanceAs (Decidable (_ ∧ _ ∧ _))

/-- Modelled from the spec: `dataset_sanity_checking` is imported from
`sanity_checkers`, which is not under src/.  Per §4.7 of the spec it asserts
that every subject and object id is in [0, num_entities) and every relation
id is in [0, num_relations). -/
def dataset_sanity_checking (data : List IdxTriple) (ne nr : Nat) : Bool :=
  data.all (fun t => decide (within_bounds ne nr t))

/-- Indexing of one split followed by its sanity check, as `KG.__init__` does
for train (knowledge_graph.py:98, 146), valid (155, 164) and test (173, 181);
a failed assertion aborts the pipeline. -/
def index_and_check (e2i r2i : List (String × Nat)) (ne nr : Nat)
    (ts : List StrTriple) : Except PyError (List IdxTriple) := do
  let d ← index_triples e2i r2i ts
  if dataset_sanity_checking d ne nr then .ok d else .error .assertionError

/-- `index_and_check` lifted to an optional split (`if self.valid_set is not
None: ...`, knowledge_graph.py:148, 166). -/
def index_and_check_opt (e2i r2i : List (String × Nat)) (ne nr : Nat) :
    Option (List StrTriple) → Except PyError (Option (List IdxTriple))
  | none => .ok none
  | some ts => (index_and_check e2i r2i ne nr ts).map some

/-- The state `KG.__init__` leaves behind for downstream consumers. -/
structure KGResult where
  entityToIdx : List (String × Nat)
  relationToIdx : List (String × Nat)
  numEntities : Nat
  numRelations : Nat
  idxTrain : List IdxTriple
  idxValid : Option (List IdxTriple)
  idxTest : Option (List IdxTriple)
deriving DecidableEq

/-- The load-and-preprocess path of `KG.__init__` (knowledge_graph.py:77-183,
`deserialize_flag is None`): augmentation, then either in-run vocabulary
construction (lines 84-112, when no precomputed vocabularies are supplied,
including the pruning inside `sequential_vocabulary_construction`) or the
precomputed-vocabulary path (lines 113-141, which never prunes), then
indexing and sanity checking of the train split and of each present
valid/test split (lines 142-183).  Supplying exactly one precomputed
vocabulary reaches `None.to_dict()` in the source and raises
`AttributeError`. -/
def KG_init (minFreq : Option Nat) (addRec evalModel : Bool)
    (noiseRate : Option ℚ) (sampler : Nat → StrTriple)
    (suppliedE suppliedR : Option (List (String × Nat))) (raw : Splits) :
    Except PyError KGResult :=
  let s := apply_reciprical_or_noise addRec evalModel noiseRate sampler raw
  match suppliedE, suppliedR with
  | none, none => do
      let v := sequential_vocabulary_construction minFreq s.train s.valid s.test
      let ne := v.entityToIdx.length
      let nr := v.relationToIdx.length
      let idxTrain ← index_and_check v.entityToIdx v.relationToIdx ne nr v.prunedTrain
      let idxValid ← index_and_check_opt v.entityToIdx v.relationToIdx ne nr s.valid
      let idxTest ← index_and_check_opt v.entityToIdx v.relationToIdx ne nr s.test
      .ok ⟨v.entityToIdx, v.relationToIdx, ne, nr, idxTrain, idxValid, idxTest⟩
  | some e2i, some r2i => do
      let ne := e2i.length
      let nr := r2i.length
      let idxTrain ← index_and_check e2i r2i ne nr s.train
      let idxValid ← index_and_check_opt e2i r2i ne nr s.valid
      let idxTest ← index_and_check_opt e2i r2i ne nr s.test
      .ok ⟨e2i, r2i, ne, nr, idxTrain, idxValid, idxTest⟩
  | _, _ => .error .attributeError

/-- The persisted artifacts a deserialization run may find under its storage
path; `none` models a missing file. -/
structure Storage where
  entityArt : Option (List (String × Nat))
  relationArt : Option (List (String × Nat))
  idxTrainArt : Option (List IdxTriple)
  idxValidArt : Option (List IdxTriple)
  idxTestArt : Option (List IdxTriple)

/-- `pd.read_parquet` / `ddf.read_parquet`: a missing file raises
`FileNotFoundError`. -/
def read_parquet {α : Type} : Option α → Except PyError α
  | none => .error .fileNotFound
  | some x => .ok x

/-- `KG.deserialize` (knowledge_graph.py:344-386): the vocabulary artifacts
and the indexed train artifact are read unguarded (their absence is an
exception), `num_entities`/`num_relations` are the lengths of the two
vocabulary artifacts, and the valid/test reads are wrapped in
`try/except FileNotFoundError` that stores `None` for an absent split. -/
def KG_deserialize (st : Storage) : Except PyError KGResult := do
  let e ← read_parquet st.entityArt
  let ne := e.length
  let r ← read_parquet st.relationArt
  let nr := r.length
  let tr ← read_parquet st.idxTrainArt
  let va := match read_parquet st.idxValidArt with
    | .ok v => some v
    | .error _ => none
  let te := match read_parquet st.idxTestArt with
    | .ok v => some v
    | .error _ => none
  .ok ⟨e, r, ne, nr, tr, va, te⟩

/-- The data the evaluation multi-maps are built from
(knowledge_graph.py:184-190 and 201-206): `np.concatenate([train, valid,
test])` only when BOTH valid and test are present, otherwise the train split
alone. -/
def eval_vocab_data (train : List IdxTriple)
    (valid test : Option (List IdxTriple)) : List IdxTriple :=
  match valid, test with
  | some v, some t => train ++ v ++ t
  | _, _ => train

/-- Modelled from the spec: `get_er_vocab` is imported from `static_funcs`,
which is not under src/.  Per §4.8 of the spec it maps a (subject_id,
relation_id) pair to all object ids seen with that pair in the given data. -/
def get_er_vocab (data : List IdxTriple) (sp : Nat × Nat) : List Nat :=
  (data.filter (fun t => decide (t.subj = sp.1 ∧ t.rel = sp.2))).map IdxTriple.obj

/-- Modelled from the spec: `get_re_vocab` (static_funcs, not under src/)
maps a (relation_id, object_id) pair to all subject ids seen with it. -/
def get_re_vocab (data : List IdxTriple) (ro : Nat × Nat) : List Nat :=
  (data.filter (fun t => decide (t.rel = ro.1 ∧ t.obj = ro.2))).map IdxTriple.subj

/-- Modelled from the spec: `get_ee_vocab` (static_funcs, not under src/)
maps a (subject_id, object_id) pair to all relation ids seen with it. -/
def get_ee_vocab (data : List IdxTriple) (so : Nat × Nat) : List Nat :=
  (data.filter (fun t => decide (t.subj = so.1 ∧ t.obj = so.2))).map IdxTriple.rel

/-- The pipeline stages of `Execute.__init__` and `Execute.start`
(executer.py:18-43, 75-79) that matter to fail-fast behaviour, in program
order. -/
inductive ExecStage where
  | preprocessArgs
  | sanityCheckArgs
  | loadKG
  | createExperimentFolder
deriving DecidableEq

/-- The configuration arguments consulted by the modelled executer slice. -/
structure ExecArgs where
  scoring_technique : String

/-- Modelled from the spec: `sanity_checking_with_arguments` is imported from
`static_funcs`, which is not under src/; only its call site
(executer.py:21, before the `KG(...)` construction at line 23) is in src/.
Per §7 of the spec, a configuration error such as an invalid scoring
technique name fails fast with a descriptive message before any expensive
work begins. -/
def sanity_checking_with_arguments (args : ExecArgs) : Except String Unit :=
  if args.scoring_technique = "NegSample" ∨ args.scoring_technique = "KvsAll"
  then .ok ()
  else .error ("Invalid scoring technique: " ++ args.scoring_technique)

/-- `Execute.__init__` (executer.py:18-28) as a stage trace: argument
preprocessing, then the argument sanity check; only when the check passes
does the run proceed to dataset loading (`KG(...)`, line 23) and experiment
folder creation (line 25).  Returns the stages performed and the error
message, if any. -/
def Execute_init_stages (args : ExecArgs) : List ExecStage × Option String :=
  match sanity_checking_with_arguments args with
  | .error m => ([.preprocessArgs, .sanityCheckArgs], some m)
  | .ok _ =>
      ([.preprocessArgs, .sanityCheckArgs, .loadKG, .createExperimentFolder],
        none)

/-- The training routine selected by `Execute.train_and_eval`. -/
inductive TrainRoutine where
  | negSampling
  | kvsAll
deriving DecidableEq

/-- The scoring-technique dispatch of `Execute.train_and_eval`
(executer.py:95-102): `NegSample` and `KvsAll` select a routine, anything
else raises `ValueError(f'Invalid argument: {technique}')` — but only after
the dataset was already loaded in `Execute.__init__`. -/
def train_and_eval_dispatch (technique : String) :
    Except String TrainRoutine :=
  if technique = "NegSample" then .ok .negSampling
  else if technique = "KvsAll" then .ok .kvsAll
  else .error ("Invalid argument: " ++ technique)

/-- Descending comparison of candidate indices by their score under `key`:
`descRel key i j` holds when `i`'s score is at least `j`'s. -/
def descRel {K : Type} [LinearOrder K] (key : Nat → K) (i j : Nat) : Prop :=
  key j ≤ key i

instance {K : Type} [LinearOrder K] (key : Nat → K) :
    DecidableRel (descRel key) :=
  fun i j => inferInstanceAs (Decidable (key j ≤ key i))

instance {K : Type} [LinearOrder K] (key : Nat → K) :
    IsTotal Nat (descRel key) :=
  ⟨fun i j => (le_total (key j) (key i)).imp id id⟩

instance {K : Type} [LinearOrder K] (key : Nat → K) :
    IsTrans Nat (descRel key) :=
  ⟨fun _ _ _ h1 h2 => le_trans h2 h1⟩

/-- `torch.sort(scores, descending=True)` on the candidate indices, modelled
as a stable descending insertion sort: candidates with equal scores keep
their original index order. -/
def sortDesc {K : Type} [LinearOrder K] (key : Nat → K) (l : List Nat) :
    List Nat :=
  List.insertionSort (descRel key) l

/-- The tail scores after the filtering steps of `Execute.evaluate_lp`
(executer.py:275-279): `target_value = predictions_tails[o].item()` is saved,
`predictions_tails[filt_tails] = -np.Inf` masks every candidate listed in
`er_vocab[(s, p)]`, and `predictions_tails[o] = target_value` restores the
target's original score.  (`Execute.evaluate_lp` computes head ranks at
lines 284-292 by the identical procedure with `po_vocab[(p, o)]` and target
`s`; this function covers both by taking the filter list and the target as
arguments.) -/
def filtered_tail_scores (pred : Nat → ℤ) (filt : List Nat) (o : Nat) :
    Nat → WithBot ℤ :=
  fun i =>
    if i = o then (pred o : WithBot ℤ)
    else if i ∈ filt then ⊥
    else (pred i : WithBot ℤ)

/-- The 1-based filtered rank reported by `Execute.evaluate_lp`
(executer.py:280-282, 294-296): the position of the target in the descending
sort of the masked scores over all `num_entities` candidates, plus one. -/
def evaluate_lp_tail_rank (pred : Nat → ℤ) (filt : List Nat) (o n : Nat) :
    Nat :=
  (sortDesc (filtered_tail_scores pred filt o) (List.range n)).indexOf o + 1

/-- The scores after the filtering steps of `Execute.evaluate_lp_k_vs_all`
(executer.py:223-227): the target's value is saved, `predictions[j, filt] =
0.0` assigns score zero — not `-np.Inf` — to every candidate listed in
`er_vocab[(s, p)]`, and the target's value is restored.  (The
relation-prediction branch at lines 200-204 is the identical procedure with
`ee_vocab`.) -/
def k_vs_all_filtered_scores (pred : Nat → ℤ) (filt : List Nat) (o : Nat) :
    Nat → ℤ :=
  fun i =>
    if i = o then pred o
    else if i ∈ filt then 0
    else pred i

/-- The 1-based rank reported by `Execute.evaluate_lp_k_vs_all`
(executer.py:229-233). -/
def evaluate_lp_k_vs_all_rank (pred : Nat → ℤ) (filt : List Nat) (o n : Nat) :
    Nat :=
  (sortDesc (k_vs_all_filtered_scores pred filt o) (List.range n)).indexOf o + 1

/-- The candidates that filtered ranking must not exclude: the target `o`
itself together with every candidate not listed in the filter list. -/
def nonExcluded (filt : List Nat) (o n : Nat) : List Nat :=
  (List.range n).filter (fun i => decide (i = o ∨ i ∉ filt))

/-- The rank as the claim words it: the 1-based position of the target among
the non-excluded candidates only, each scored at its original predicted
value. -/
def spec_filtered_rank (pred : Nat → ℤ) (filt : List Nat) (o n : Nat) : Nat :=
  (sortDesc (fun i => pred i) (nonExcluded filt o n)).indexOf o + 1

/-- Generic masked scores: the target keeps its score, filtered candidates
are assigned the constant `mask`, everything else keeps its score.
`filtered_tail_scores` is the instance `mask = ⊥` over `WithBot ℤ` and
`k_vs_all_filtered_scores` is the instance `mask = 0` over `ℤ`. -/
def masked_key {K : Type} [LinearOrder K] (key : Nat → K) (mask : K)
    (filt : List Nat) (o : Nat) : Nat → K :=
  fun i => if i = o then key o else if i ∈ filt then mask else key i

/-- The entity id assignment as the claim words it: ids in order of first
appearance scanning the concatenated rows in row order, subject before
object within each row (insertion-order-first-seen over the triples). -/
def spec_row_scan_entity_to_idx (df : List StrTriple) :
    List (String × Nat) :=
  withIdx (pdUnique (df.flatMap (fun t => [t.subj, t.obj]))) 0

/-- Two-row training split separating the row-scan entity order
(a, b, c, d) from the column-major ravel order (a, c, b, d). -/
def exDfC3 : List StrTriple := [⟨"a", "p", "b"⟩, ⟨"c", "p", "d"⟩]

/-- One-triple training split whose every string is low-frequency. -/
def exTrainC4 : List StrTriple := [⟨"a", "p", "b"⟩]

/-- A validation split repeating the pruned training triple. -/
def exValidC4 : List StrTriple := [⟨"a", "p", "b"⟩]

/-- Predicted scores with a negative target score: candidate 0 (the target)
scores -1, every other candidate scores -5. -/
def cexPred : Nat → ℤ := fun i => if i = 0 then -1 else -5

/-- Strictly positive predicted scores. -/
def witPred : Nat → ℤ := fun i => (i : ℤ) + 1

/-- The two test triples of the claim's scenario, indexed: er_vocab[(5, 7)]
collects both objects 0 and 1. -/
def cexData : List IdxTriple := [⟨5, 7, 0⟩, ⟨5, 7, 1⟩]

/-- A constant noise sampler for concrete runs. -/
def exSampler : Nat → StrTriple := fun _ => ⟨"a", "p", "b"⟩

theorem mem_pdUniqueAux {x : String} :
    ∀ (l seen : List String), x ∈ pdUniqueAux l seen ↔ x ∈ l ∧ x ∉ seen := by
  intro l
  induction l with
  | nil => intro seen; simp [pdUniqueAux]
  | cons a t ih =>
      intro seen
      by_cases h : a ∈ seen
      · rw [pdUniqueAux, if_pos h, ih, List.mem_cons]
        constructor
        · rintro ⟨hx, hs⟩; exact ⟨Or.inr hx, hs⟩
        · rintro ⟨hx | hx, hs⟩
          · exact absurd (hx ▸ h) hs
          · exact ⟨hx, hs⟩
      · rw [pdUniqueAux, if_neg h, List.mem_cons, ih, List.mem_cons,
          List.mem_cons]
        constructor
        · rintro (rfl | ⟨hx, hs⟩)
          · exact ⟨Or.inl rfl, h⟩
          · exact ⟨Or.inr hx, fun hmem => hs (Or.inr hmem)⟩
        · rintro ⟨hx | hx, hs⟩
          · exact Or.inl hx
          · by_cases hxa : x = a
            · exact Or.inl hxa
            · exact Or.inr ⟨hx, fun hmem => hmem.elim hxa hs⟩

theorem mem_pdUnique {x : String} {l : List String} :
    x ∈ pdUnique l ↔ x ∈ l := by
  simp [pdUnique, mem_pdUniqueAux]

theorem pdUniqueAux_nodup :
    ∀ (l seen : List String), (pdUniqueAux l seen).Nodup := by
  intro l
  induction l with
  | nil => intro seen; simp [pdUniqueAux]
  | cons a t ih =>
      intro seen
      by_cases h : a ∈ seen
      · rw [pdUniqueAux, if_pos h]; exact ih seen
      · rw [pdUniqueAux, if_neg h]
        refine List.nodup_cons.2 ⟨fun hmem => ?_, ih (a :: seen)⟩
        exact ((mem_pdUniqueAux t (a :: seen)).1 hmem).2 (List.mem_cons_self a seen)

theorem pdUnique_nodup (l : List String) : (pdUnique l).Nodup :=
  pdUniqueAux_nodup l []

theorem withIdx_map_fst :
    ∀ (l : List String) (n : Nat), (withIdx l n).map Prod.fst = l := by
  intro l
  induction l with
  | nil => intro n; rfl
  | cons a t ih => intro n; simp [withIdx, ih]

theorem withIdx_map_snd :
    ∀ (l : List String) (n : Nat),
      (withIdx l n).map Prod.snd = List.range' n l.length := by
  intro l
  induction l with
  | nil => intro n; rfl
  | cons a t ih => intro n; simp [withIdx, ih, List.range'_succ]

theorem withIdx_length (l : List String) (n : Nat) :
    (withIdx l n).length = l.length := by
  have h := congrArg List.length (withIdx_map_fst l n)
  simpa using h

theorem mem_ravelK {s : String} {df : List StrTriple} :
    s ∈ ravelK df ↔ ∃ tr ∈ df, tr.subj = s ∨ tr.obj = s := by
  simp only [ravelK, List.mem_append, List.mem_map]
  constructor
  · rintro (⟨tr, htr, hs⟩ | ⟨tr, htr, hs⟩)
    · exact ⟨tr, htr, Or.inl hs⟩
    · exact ⟨tr, htr, Or.inr hs⟩
  · rintro ⟨tr, htr, hs | hs⟩
    · exact Or.inl ⟨tr, htr, hs⟩
    · exact Or.inr ⟨tr, htr, hs⟩

/-- Claim C3 (amended): for every collection of (pruned, augmented)
train/valid/test triple sets, the entity vocabulary maps exactly the distinct
entity strings (subjects and objects across all splits) to the dense id range
{0, …, N−1} with no gaps or duplicates; entity ids are assigned by first
appearance in the column-major ravel of the concatenated table — the whole
subject column in row order over train, valid, test, then the whole object
column — not by a row-by-row scan.  The relation vocabulary likewise maps
exactly the distinct predicate strings to a dense range, with ids assigned by
first appearance in row order over the concatenated splits. -/
theorem vocabulary_dense_and_deterministic :
    ∀ (train : List StrTriple) (valid test : Option (List StrTriple)),
      ((entity_to_idx (concatSplits train valid test)).map Prod.snd
          = List.range (entity_to_idx (concatSplits train valid test)).length)
      ∧ ((entity_to_idx (concatSplits train valid test)).map Prod.fst).Nodup
      ∧ (∀ s, s ∈ (entity_to_idx (concatSplits train valid test)).map Prod.fst
          ↔ ∃ tr ∈ concatSplits train valid test, tr.subj = s ∨ tr.obj = s)
      ∧ ((entity_to_idx (concatSplits train valid test)).map Prod.fst
          = pdUnique (ravelK (concatSplits train valid test)))
      ∧ ((relation_to_idx (concatSplits train valid test)).map Prod.snd
          = List.range (relation_to_idx (concatSplits train valid test)).length)
      ∧ ((relation_to_idx (concatSplits train valid test)).map Prod.fst).Nodup
      ∧ (∀ r, r ∈ (relation_to_idx (concatSplits train valid test)).map Prod.fst
          ↔ ∃ tr ∈ concatSplits train valid test, tr.rel = r)
      ∧ ((relation_to_idx (concatSplits train valid test)).map Prod.fst
          = pdUnique ((concatSplits train valid test).map StrTriple.rel)) := by
  intro train valid test
  refine ⟨?_, ?_, ?_, ?_, ?_, ?_, ?_, ?_⟩
  · rw [entity_to_idx, withIdx_map_snd, withIdx_length, List.range_eq_range']
  · rw [entity_to_idx, withIdx_map_fst]; exact pdUnique_nodup _
  · intro s
    rw [entity_to_idx, withIdx_map_fst, mem_pdUnique, mem_ravelK]
  · rw [entity_to_idx, withIdx_map_fst]
  · rw [relation_to_idx, withIdx_map_snd, withIdx_length, List.range_eq_range']
  · rw [relation_to_idx, withIdx_map_fst]; exact pdUnique_nodup _
  · intro r
    rw [relation_to_idx, withIdx_map_fst, mem_pdUnique, List.mem_map]
  · rw [relation_to_idx, withIdx_map_fst]

/-- Claim C3, counterexample to the claimed id order: on the training split
[("a", p, "b"), ("c", p, "d")] the code's column-major ravel assigns ids
a ↦ 0, c ↦ 1, b ↦ 2, d ↦ 3, while first-appearance order over the
concatenated triples (subject then object within each row) would assign
b ↦ 1. -/
theorem entity_order_not_row_scan :
    (entity_to_idx exDfC3).lookup "b" = some 2
      ∧ (spec_row_scan_entity_to_idx exDfC3).lookup "b" = some 1
      ∧ (entity_to_idx exDfC3).lookup "b"
          ≠ (spec_row_scan_entity_to_idx exDfC3).lookup "b" := by
  decide

theorem mem_pruned_not_low {train : List StrTriple} {t : Nat}
    {tr : StrTriple}
    (h : tr ∈ remove_triples_from_train_with_condition (some t) train) :
    ¬ entityFrequency train tr.subj ≤ t
      ∧ ¬ entityFrequency train tr.obj ≤ t
      ∧ ¬ relationFrequency train tr.rel ≤ t := by
  simp only [remove_triples_from_train_with_condition, List.mem_filter,
    Bool.not_eq_true', decide_eq_false_iff_not] at h
  exact ⟨h.1.1.2, h.1.2, h.2⟩

/-- Claim C4 (amended): for every run with a positive minimum-frequency
threshold t, frequency pruning executes before vocabulary construction (the
vocabularies are built from the pruned training split concatenated with the
other splits), and every string removed by pruning (an entity or relation
whose occurrence count in the training split is ≤ t) receives no vocabulary
id from the training split — it receives an id only if it still occurs in
the valid or test split, because pruning is applied to train alone while the
vocabularies are built over all splits. -/
theorem pruning_before_vocabulary_construction :
    ∀ (train : List StrTriple) (valid test : Option (List StrTriple))
      (t : Nat) (s : String), 0 < t →
      ((sequential_vocabulary_construction (some t) train valid test).entityToIdx
          = entity_to_idx (concatSplits
              (remove_triples_from_train_with_condition (some t) train)
              valid test))
      ∧ (entityFrequency train s ≤ t →
          (¬ ∃ tr ∈ valid.getD [] ++ test.getD [], tr.subj = s ∨ tr.obj = s) →
          s ∉ ((sequential_vocabulary_construction (some t) train valid
              test).entityToIdx).map Prod.fst)
      ∧ (relationFrequency train s ≤ t →
          (¬ ∃ tr ∈ valid.getD [] ++ test.getD [], tr.rel = s) →
          s ∉ ((sequential_vocabulary_construction (some t) train valid
              test).relationToIdx).map Prod.fst) := by
  intro train valid test t s _
  refine ⟨rfl, ?_, ?_⟩
  · intro hfreq hnot hmem
    rw [sequential_vocabulary_construction] at hmem
    simp only [entity_to_idx, withIdx_map_fst, mem_pdUnique, mem_ravelK] at hmem
    obtain ⟨tr, htr, hso⟩ := hmem
    rw [concatSplits, List.append_assoc, List.mem_append] at htr
    rcases htr with htr | htr
    · have hlow := mem_pruned_not_low htr
      rcases hso with hs | hs
      · exact hlow.1 (hs ▸ hfreq)
      · exact hlow.2.1 (hs ▸ hfreq)
    · exact hnot ⟨tr, htr, hso⟩
  · intro hfreq hnot hmem
    rw [sequential_vocabulary_construction] at hmem
    simp only [relation_to_idx, withIdx_map_fst, mem_pdUnique,
      List.mem_map] at hmem
    obtain ⟨tr, htr, hso⟩ := hmem
    rw [concatSplits, List.append_assoc, List.mem_append] at htr
    rcases htr with htr | htr
    · exact (mem_pruned_not_low htr).2.2 (hso ▸ hfreq)
    · exact hnot ⟨tr, htr, hso⟩

/-- Claim C4, counterexample: with threshold 1, the training split
[("a", p, "b")] is pruned away entirely — "a" has occurrence count 1 ≤ 1 —
yet "a" still receives vocabulary id 0 because it occurs in the valid split,
which pruning never touches. -/
theorem pruned_string_still_gets_id :
    entityFrequency exTrainC4 "a" ≤ 1
      ∧ (sequential_vocabulary_construction (some 1) exTrainC4
          (some exValidC4) none).prunedTrain = []
      ∧ ("a", 0) ∈ (sequential_vocabulary_construction (some 1) exTrainC4
          (some exValidC4) none).entityToIdx := by
  decide

/-- Claim C4, witness: in a run with training split [("a", p, "b")],
threshold 1 and no valid/test splits, the pruned entity "a" indeed receives
no vocabulary id. -/
theorem pruning_before_vocabulary_construction_witness :
    "a" ∉ ((sequential_vocabulary_construction (some 1) exTrainC4 none
        none).entityToIdx).map Prod.fst :=
  (pruning_before_vocabulary_construction exTrainC4 none none 1 "a"
      (by decide)).2.1 (by decide) (by simp)

theorem mem_eval_data_mem_vocabs {data : List IdxTriple} {tr : IdxTriple}
    (h : tr ∈ data) :
    tr.obj ∈ get_er_vocab data (tr.subj, tr.rel)
      ∧ tr.subj ∈ get_re_vocab data (tr.rel, tr.obj)
      ∧ tr.rel ∈ get_ee_vocab data (tr.subj, tr.obj) := by
  refine ⟨?_, ?_, ?_⟩
  · simp only [get_er_vocab, List.mem_map, List.mem_filter]
    exact ⟨tr, ⟨h, by simp⟩, rfl⟩
  · simp only [get_re_vocab, List.mem_map, List.mem_filter]
    exact ⟨tr, ⟨h, by simp⟩, rfl⟩
  · simp only [get_ee_vocab, List.mem_map, List.mem_filter]
    exact ⟨tr, ⟨h, by simp⟩, rfl⟩

/-- Claim C2 (amended): the evaluation multi-maps are built from the
concatenation train ++ valid ++ test only when evaluation is requested and
BOTH valid and test are present; in every other case — including a run where
exactly one optional split is present — they are built from the train split
alone, so a present split is not always included.  Every triple of the data
actually used is registered in er_vocab, re_vocab and ee_vocab. -/
theorem eval_vocab_data_splits :
    (∀ (train v t : List IdxTriple),
        eval_vocab_data train (some v) (some t) = train ++ v ++ t)
    ∧ (∀ (train : List IdxTriple) (valid test : Option (List IdxTriple)),
        valid = none ∨ test = none → eval_vocab_data train valid test = train)
    ∧ (∀ (train : List IdxTriple) (valid test : Option (List IdxTriple))
        (tr : IdxTriple), tr ∈ eval_vocab_data train valid test →
        tr.obj ∈ get_er_vocab (eval_vocab_data train valid test) (tr.subj, tr.rel)
        ∧ tr.subj ∈ get_re_vocab (eval_vocab_data train valid test) (tr.rel, tr.obj)
        ∧ tr.rel ∈ get_ee_vocab (eval_vocab_data train valid test) (tr.subj, tr.obj)) := by
  refine ⟨fun train v t => rfl, ?_, ?_⟩
  · rintro train valid test (rfl | rfl)
    · rfl
    · cases valid <;> rfl
  · intro train valid test tr h
    exact mem_eval_data_mem_vocabs h

/-- Claim C2, counterexample: with the valid split present and the test
split absent, the data handed to the vocabulary builders is the train split
alone; the valid triple (2, 3, 4) is dropped, so er_vocab[(2, 3)] is empty
even though the valid split is present. -/
theorem present_valid_split_excluded :
    eval_vocab_data [⟨0, 0, 1⟩] (some [⟨2, 3, 4⟩]) none = [⟨0, 0, 1⟩]
      ∧ get_er_vocab (eval_vocab_data [⟨0, 0, 1⟩] (some [⟨2, 3, 4⟩]) none)
          (2, 3) = [] := by
  decide

/-- Claim C2, witness: with test absent the data is the train split, and the
train triple (0, 0, 1) is registered in er_vocab. -/
theorem eval_vocab_data_splits_witness :
    eval_vocab_data [⟨0, 0, 1⟩] (some [⟨2, 3, 4⟩]) none = [⟨0, 0, 1⟩]
      ∧ (1 : Nat) ∈ get_er_vocab
          (eval_vocab_data [⟨0, 0, 1⟩] (some [⟨2, 3, 4⟩]) none) (0, 0) :=
  ⟨eval_vocab_data_splits.2.1 _ _ _ (Or.inr rfl),
    (eval_vocab_data_splits.2.2 _ _ _ ⟨0, 0, 1⟩ (by decide)).1⟩

/-- Claim C5 (confirmed): reciprocal augmentation is applied to the valid
and test splits (when present) and to the train split exactly when both the
reciprocal flag and the evaluation flag are set; noise injection, when a
rate is configured, is applied afterwards and only to the training split —
the valid/test components never depend on the noise rate. -/
theorem reciprocal_iff_flags_noise_train_only :
    ∀ (addRec evalModel : Bool) (noiseRate : Option ℚ)
      (sampler : Nat → StrTriple) (s : Splits),
      ((apply_reciprical_or_noise addRec evalModel noiseRate sampler s).valid
        = if addRec && evalModel
          then s.valid.map create_recipriocal_triples_from_dask
          else s.valid)
      ∧ ((apply_reciprical_or_noise addRec evalModel noiseRate sampler s).test
        = if addRec && evalModel
          then s.test.map create_recipriocal_triples_from_dask
          else s.test)
      ∧ ((apply_reciprical_or_noise addRec evalModel noiseRate sampler s).train
        = match noiseRate with
          | some r => add_noisy_triples sampler r
              (if addRec && evalModel
               then create_recipriocal_triples_from_dask s.train
               else s.train)
          | none =>
              if addRec && evalModel
              then create_recipriocal_triples_from_dask s.train
              else s.train) := by
  intro addRec evalModel noiseRate sampler s
  cases noiseRate <;>
    by_cases h : (addRec && evalModel) = true <;>
      simp [apply_reciprical_or_noise, h]

/-- Claim C7 (confirmed): when the vocabulary artifacts and the indexed
train artifact are present, deserialization returns normally — an absent
valid or test artifact is stored as an absent split (`none`), never raised
to the caller — and `num_entities`/`num_relations` are computed from the two
vocabulary artifacts, unaffected by the optional splits. -/
theorem deserialize_missing_split_not_fatal :
    ∀ (st : Storage) (e r : List (String × Nat)) (tr : List IdxTriple),
      st.entityArt = some e → st.relationArt = some r →
      st.idxTrainArt = some tr →
      KG_deserialize st
        = .ok ⟨e, r, e.length, r.length, tr, st.idxValidArt, st.idxTestArt⟩ := by
  intro st e r tr he hr htr
  obtain ⟨ea, ra, ta, va, tte⟩ := st
  cases he; cases hr; cases htr
  cases va <;> cases tte <;> rfl

/-- Claim C7, witness: a concrete storage with both optional artifacts
missing deserializes to a state with both splits absent and the counts taken
from the vocabularies. -/
theorem deserialize_missing_split_not_fatal_witness :
    KG_deserialize ⟨some [("a", 0)], some [("p", 0)], some [⟨0, 0, 0⟩],
        none, none⟩
      = .ok ⟨[("a", 0)], [("p", 0)], 1, 1, [⟨0, 0, 0⟩], none, none⟩ :=
  deserialize_missing_split_not_fatal _ _ _ _ rfl rfl rfl

/-- Claim C8 (code bug): `KG.sequential_vocabulary_construction` serializes
the two vocabularies unconditionally (knowledge_graph.py:260, 270) — unlike
every other serialization in `KG.__init__`, these calls are not guarded by
`if path_for_serialization is not None` — so a run without a configured
storage location evaluates `None + '/entity_to_idx.gzip'` and aborts with
`TypeError` instead of skipping persistence; with a configured location both
vocabulary artifacts are written. -/
theorem vocab_serialization_unconditional :
    sequential_vocabulary_construction_ser none none [⟨"a", "p", "b"⟩]
        none none = .error .typeError
      ∧ sequential_vocabulary_construction_ser (some "exp") none
          [⟨"a", "p", "b"⟩] none none
        = .ok (⟨[("a", 0), ("b", 1)], [("p", 0)], [⟨"a", "p", "b"⟩]⟩,
            ["exp/entity_to_idx.gzip", "exp/relation_to_idx.gzip"]) :=
  ⟨rfl, rfl⟩

/-- Claim C9 (confirmed): a run configured with a scoring technique other
than NegSample or KvsAll fails during the argument sanity check with a
descriptive message, before the dataset-loading stage (`KG(...)`) is ever
reached; the later dispatch in `Execute.train_and_eval` also rejects such a
technique with `ValueError`. -/
theorem invalid_scoring_technique_fails_fast :
    ∀ args : ExecArgs,
      args.scoring_technique ≠ "NegSample" →
      args.scoring_technique ≠ "KvsAll" →
      (Execute_init_stages args).2
          = some ("Invalid scoring technique: " ++ args.scoring_technique)
        ∧ ExecStage.loadKG ∉ (Execute_init_stages args).1
        ∧ train_and_eval_dispatch args.scoring_technique
            = .error ("Invalid argument: " ++ args.scoring_technique) := by
  intro args h1 h2
  have hsan : sanity_checking_with_arguments args
      = .error ("Invalid scoring technique: " ++ args.scoring_technique) := by
    rw [sanity_checking_with_arguments, if_neg]
    rintro (h | h)
    · exact h1 h
    · exact h2 h
  refine ⟨?_, ?_, ?_⟩
  · rw [Execute_init_stages, hsan]
  · rw [Execute_init_stages, hsan]
    show ExecStage.loadKG ∉ [ExecStage.preprocessArgs, ExecStage.sanityCheckArgs]
    decide
  · rw [train_and_eval_dispatch, if_neg h1, if_neg h2]

/-- Claim C9, witness: the technique name "Bogus" is rejected before the
dataset-loading stage. -/
theorem invalid_scoring_technique_fails_fast_witness :
    (Execute_init_stages ⟨"Bogus"⟩).2
        = some ("Invalid scoring technique: " ++ "Bogus")
      ∧ ExecStage.loadKG ∉ (Execute_init_stages ⟨"Bogus"⟩).1
      ∧ train_and_eval_dispatch "Bogus"
          = .error ("Invalid argument: " ++ "Bogus") :=
  invalid_scoring_technique_fails_fast ⟨"Bogus"⟩ (by decide) (by decide)

theorem filter_cons_pos {α : Type} (p : α → Bool) (a : α) (l : List α)
    (h : p a = true) : (a :: l).filter p = a :: l.filter p :=
  List.filter_cons_of_pos h

theorem filter_cons_neg {α : Type} (p : α → Bool) (a : α) (l : List α)
    (h : p a = false) : (a :: l).filter p = l.filter p :=
  List.filter_cons_of_neg (by simp [h])

theorem takeWhile_cons_pos {α : Type} (p : α → Bool) (a : α) (l : List α)
    (h : p a = true) : (a :: l).takeWhile p = a :: l.takeWhile p :=
  List.takeWhile_cons_of_pos h

theorem takeWhile_cons_neg {α : Type} (p : α → Bool) (a : α) (l : List α)
    (h : p a = false) : (a :: l).takeWhile p = [] :=
  List.takeWhile_cons_of_neg (by simp [h])

theorem indexOf_orderedInsert_self {K : Type} [LinearOrder K]
    (key : Nat → K) (o : Nat) :
    ∀ l : List Nat, l.Sorted (descRel key) → o ∉ l →
      (List.orderedInsert (descRel key) o l).indexOf o
        = (l.filter (fun i => decide (key o < key i))).length := by
  intro l
  induction l with
  | nil => intro _ _; simp [List.orderedInsert]
  | cons b t ih =>
      intro hs hno
      rw [List.orderedInsert]
      by_cases h : descRel key o b
      · rw [if_pos h, List.indexOf_cons_self]
        symm
        rw [List.length_eq_zero, List.filter_eq_nil_iff]
        intro a ha
        simp only [decide_eq_true_eq, not_lt]
        rcases List.mem_cons.1 ha with rfl | hat
        · exact h
        · exact le_trans (List.rel_of_sorted_cons hs _ hat) h
      · rw [if_neg h]
        have hob : key o < key b := not_le.1 h
        have hbo : b ≠ o := fun he => absurd hob (by rw [he]; exact lt_irrefl _)
        rw [List.indexOf_cons_ne _ hbo,
          ih hs.of_cons (fun hm => hno (List.mem_cons_of_mem _ hm)),
          filter_cons_pos (fun i => decide (key o < key i)) b t
            (by simpa using hob),
          List.length_cons]

theorem indexOf_orderedInsert_other {K : Type} [LinearOrder K]
    (key : Nat → K) (x o : Nat) (hxo : x ≠ o) :
    ∀ l : List Nat, l.Sorted (descRel key) → o ∈ l →
      (List.orderedInsert (descRel key) x l).indexOf o
        = l.indexOf o + (if key o ≤ key x then 1 else 0) := by
  intro l
  induction l with
  | nil => intro _ ho; simp at ho
  | cons b t ih =>
      intro hs ho
      rw [List.orderedInsert]
      by_cases h : descRel key x b
      · rw [if_pos h, List.indexOf_cons_ne _ hxo]
        have hko : key o ≤ key x := by
          rcases List.mem_cons.1 ho with rfl | hot
          · exact h
          · exact le_trans (List.rel_of_sorted_cons hs _ hot) h
        rw [if_pos hko]
      · rw [if_neg h]
        have hxb : key x < key b := not_le.1 h
        by_cases hbo : b = o
        · subst hbo
          rw [List.indexOf_cons_self, List.indexOf_cons_self,
            if_neg (not_le.2 hxb)]
        · have hot : o ∈ t :=
            (List.mem_cons.1 ho).resolve_left (fun he => hbo he.symm)
          rw [List.indexOf_cons_ne _ hbo, List.indexOf_cons_ne _ hbo,
            ih hs.of_cons hot]
          generalize (if key o ≤ key x then 1 else 0) = c
          omega

theorem indexOf_sortDesc {K : Type} [LinearOrder K] (key : Nat → K)
    (o : Nat) :
    ∀ l : List Nat, l.Nodup → o ∈ l →
      (sortDesc key l).indexOf o
        = (l.filter (fun i => decide (key o < key i))).length
          + ((l.takeWhile (fun i => decide (i ≠ o))).filter
              (fun i => decide (key i = key o))).length := by
  intro l
  induction l with
  | nil => intro _ ho; simp at ho
  | cons x t ih =>
      intro hnd ho
      rw [sortDesc, List.insertionSort]
      rcases eq_or_ne x o with rfl | hxo
      · have hot : x ∉ t := (List.nodup_cons.1 hnd).1
        have hsorted := List.sorted_insertionSort (descRel key) t
        have hnm : x ∉ List.insertionSort (descRel key) t :=
          fun hm => hot ((List.perm_insertionSort (descRel key) t).mem_iff.1 hm)
        rw [indexOf_orderedInsert_self key x _ hsorted hnm,
          ((List.perm_insertionSort (descRel key) t).filter _).length_eq,
          filter_cons_neg (fun i => decide (key x < key i)) x t (by simp),
          takeWhile_cons_neg (fun i => decide (i ≠ x)) x t (by simp)]
        simp
      · have hot : o ∈ t :=
          (List.mem_cons.1 ho).resolve_left (fun he => hxo he.symm)
        have hsorted := List.sorted_insertionSort (descRel key) t
        have hom : o ∈ List.insertionSort (descRel key) t :=
          (List.perm_insertionSort (descRel key) t).mem_iff.2 hot
        have iht := ih (List.nodup_cons.1 hnd).2 hot
        rw [sortDesc] at iht
        rw [indexOf_orderedInsert_other key x o hxo _ hsorted hom, iht,
          takeWhile_cons_pos (fun i => decide (i ≠ o)) x t (by simpa using hxo)]
        rcases lt_trichotomy (key x) (key o) with hlt | heq | hgt
        · rw [if_neg (not_le.2 hlt),
            filter_cons_neg (fun i => decide (key o < key i)) x t
              (by simpa using lt_asymm hlt),
            filter_cons_neg (fun i => decide (key i = key o)) x
              (t.takeWhile (fun i => decide (i ≠ o)))
              (by simpa using hlt.ne)]
          omega
        · rw [if_pos heq.ge,
            filter_cons_neg (fun i => decide (key o < key i)) x t
              (by simp [heq]),
            filter_cons_pos (fun i => decide (key i = key o)) x
              (t.takeWhile (fun i => decide (i ≠ o)))
              (by simpa using heq),
            List.length_cons]
          omega
        · rw [if_pos hgt.le,
            filter_cons_pos (fun i => decide (key o < key i)) x t
              (by simpa using hgt),
            filter_cons_neg (fun i => decide (key i = key o)) x
              (t.takeWhile (fun i => decide (i ≠ o)))
              (by simpa using hgt.ne'),
            List.length_cons]
          omega

theorem takeWhile_filter_comm {p : Nat → Bool} {o : Nat}
    (hpo : p o = true) :
    ∀ l : List Nat,
      (l.filter p).takeWhile (fun i => decide (i ≠ o))
        = (l.takeWhile (fun i => decide (i ≠ o))).filter p := by
  intro l
  induction l with
  | nil => rfl
  | cons a t ih =>
      by_cases hao : a = o
      · subst hao
        rw [filter_cons_pos p a t hpo,
          takeWhile_cons_neg (fun i => decide (i ≠ a)) a (t.filter p) (by simp),
          takeWhile_cons_neg (fun i => decide (i ≠ a)) a t (by simp)]
        rfl
      · by_cases hpa : p a = true
        · rw [filter_cons_pos p a t hpa,
            takeWhile_cons_pos (fun i => decide (i ≠ o)) a (t.filter p)
              (by simpa using hao),
            takeWhile_cons_pos (fun i => decide (i ≠ o)) a t
              (by simpa using hao),
            filter_cons_pos p a (t.takeWhile (fun i => decide (i ≠ o))) hpa, ih]
        · have hpa' : p a = false := by simpa using hpa
          rw [filter_cons_neg p a t hpa',
            takeWhile_cons_pos (fun i => decide (i ≠ o)) a t
              (by simpa using hao),
            filter_cons_neg p a (t.takeWhile (fun i => decide (i ≠ o))) hpa',
            ih]

theorem masked_rank_eq {K : Type} [LinearOrder K] (key : Nat → K) (mask : K)
    (filt : List Nat) (o n : Nat) (ho : o < n) (hm : mask < key o) :
    (sortDesc (masked_key key mask filt o) (List.range n)).indexOf o
      = (sortDesc key (nonExcluded filt o n)).indexOf o := by
  have hmo : masked_key key mask filt o o = key o := by simp [masked_key]
  have honx : o ∈ nonExcluded filt o n := by
    simp [nonExcluded, List.mem_filter, List.mem_range, ho]
  rw [indexOf_sortDesc (masked_key key mask filt o) o (List.range n)
      (List.nodup_range n) (List.mem_range.2 ho),
    indexOf_sortDesc key o (nonExcluded filt o n)
      ((List.nodup_range n).filter _) honx]
  have h1 :
      ((List.range n).filter
          (fun i => decide (masked_key key mask filt o o
            < masked_key key mask filt o i))).length
        = ((nonExcluded filt o n).filter
            (fun i => decide (key o < key i))).length := by
    rw [nonExcluded, List.filter_filter]
    apply congrArg
    apply List.filter_congr
    intro i _
    rcases eq_or_ne i o with rfl | hio
    · simp [masked_key]
    · by_cases hif : i ∈ filt
      · simp [masked_key, hmo, hio, hif, not_lt.2 hm.le]
      · simp [masked_key, hmo, hio, hif]
  have h2 :
      (((List.range n).takeWhile (fun i => decide (i ≠ o))).filter
          (fun i => decide (masked_key key mask filt o i
            = masked_key key mask filt o o))).length
        = (((nonExcluded filt o n).takeWhile (fun i => decide (i ≠ o))).filter
            (fun i => decide (key i = key o))).length := by
    rw [nonExcluded, takeWhile_filter_comm (by simp), List.filter_filter]
    apply congrArg
    apply List.filter_congr
    intro i hi
    have hio : i ≠ o := by
      have := List.mem_takeWhile_imp hi
      simpa using this
    by_cases hif : i ∈ filt
    · simp [masked_key, hmo, hio, hif, hm.ne]
    · simp [masked_key, hmo, hio, hif]
  rw [h1, h2]

theorem orderedInsert_rel_congr {r s : Nat → Nat → Prop} [DecidableRel r]
    [DecidableRel s] (h : ∀ i j, r i j ↔ s i j) (x : Nat) :
    ∀ l : List Nat, List.orderedInsert r x l = List.orderedInsert s x l := by
  intro l
  induction l with
  | nil => rfl
  | cons b t ih =>
      rw [List.orderedInsert, List.orderedInsert]
      by_cases hrb : r x b
      · rw [if_pos hrb, if_pos ((h x b).1 hrb)]
      · rw [if_neg hrb, if_neg (fun hsb => hrb ((h x b).2 hsb)), ih]

theorem insertionSort_rel_congr {r s : Nat → Nat → Prop} [DecidableRel r]
    [DecidableRel s] (h : ∀ i j, r i j ↔ s i j) :
    ∀ l : List Nat, List.insertionSort r l = List.insertionSort s l := by
  intro l
  induction l with
  | nil => rfl
  | cons b t ih =>
      rw [List.insertionSort, List.insertionSort, ih,
        orderedInsert_rel_congr h]

theorem sortDesc_coe_int (pred : Nat → ℤ) (l : List Nat) :
    sortDesc (fun i => ((pred i : ℤ) : WithBot ℤ)) l
      = sortDesc (fun i => pred i) l := by
  rw [sortDesc, sortDesc]
  exact insertionSort_rel_congr
    (fun i j => by simp [descRel, WithBot.coe_le_coe]) l

/-- Claim C1 (amended): in `Execute.evaluate_lp`, every candidate listed in
`er_vocab[(s, p)]` other than the target is set to -∞ and hence genuinely
excluded while the target keeps its original predicted value, so the
reported rank equals the target's 1-based position among the non-excluded
candidates (symmetrically for head prediction with `po_vocab`).  In
`Execute.evaluate_lp_k_vs_all` the filtered candidates are instead assigned
score 0.0: the reported rank equals the position among the non-excluded
candidates only when the target's predicted value is positive — with a
non-positive target score a filtered candidate can still outrank the
target.  Ranks are modelled with a stable descending sort (ties keep index
order). -/
theorem filtered_ranking_ranks :
    (∀ (pred : Nat → ℤ) (filt : List Nat) (o n : Nat), o < n →
        evaluate_lp_tail_rank pred filt o n = spec_filtered_rank pred filt o n)
    ∧ (∀ (pred : Nat → ℤ) (filt : List Nat) (o n : Nat), o < n →
        0 < pred o →
        evaluate_lp_k_vs_all_rank pred filt o n
          = spec_filtered_rank pred filt o n) := by
  constructor
  · intro pred filt o n ho
    rw [evaluate_lp_tail_rank, spec_filtered_rank]
    have h1 : filtered_tail_scores pred filt o
        = masked_key (fun i => ((pred i : ℤ) : WithBot ℤ)) ⊥ filt o := rfl
    rw [h1, masked_rank_eq (fun i => ((pred i : ℤ) : WithBot ℤ)) ⊥ filt o n ho
        (WithBot.bot_lt_coe _), sortDesc_coe_int]
  · intro pred filt o n ho hpos
    rw [evaluate_lp_k_vs_all_rank, spec_filtered_rank]
    have h1 : k_vs_all_filtered_scores pred filt o
        = masked_key pred 0 filt o := rfl
    rw [h1, masked_rank_eq pred 0 filt o n ho hpos]

/-- Claim C1, counterexample: in the claim's own scenario the indexed data
{(5, 7, 0), (5, 7, 1)} gives er_vocab[(5, 7)] = {0, 1}; with target object 0
predicted at -1 and the known alternative 1 filtered to 0.0 by
`evaluate_lp_k_vs_all`, the alternative still outranks the target — the code
reports rank 2 while the rank among non-excluded candidates is 1, so the
filtered candidate was not excluded from the rank computation. -/
theorem k_vs_all_mask_not_excluding :
    get_er_vocab cexData (5, 7) = [0, 1]
      ∧ evaluate_lp_k_vs_all_rank cexPred (get_er_vocab cexData (5, 7)) 0 2 = 2
      ∧ spec_filtered_rank cexPred (get_er_vocab cexData (5, 7)) 0 2 = 1 := by
  decide

/-- Claim C1, witness: a concrete query with three candidates, target 0 and
filter list [1]. -/
theorem filtered_ranking_ranks_witness :
    evaluate_lp_tail_rank witPred [1] 0 3 = spec_filtered_rank witPred [1] 0 3
      ∧ evaluate_lp_k_vs_all_rank witPred [1] 0 3
          = spec_filtered_rank witPred [1] 0 3 :=
  ⟨filtered_ranking_ranks.1 witPred [1] 0 3 (by decide),
    filtered_ranking_ranks.2 witPred [1] 0 3 (by decide) (by decide)⟩

theorem except_bind_ok {ε α β : Type} {e : Except ε α} {f : α → Except ε β}
    {b : β} : (e >>= f) = .ok b ↔ ∃ a, e = .ok a ∧ f a = .ok b := by
  cases e <;> simp [Bind.bind, Except.bind]

theorem sanity_iff (data : List IdxTriple) (ne nr : Nat) :
    dataset_sanity_checking data ne nr = true
      ↔ ∀ tr ∈ data, within_bounds ne nr tr := by
  simp [dataset_sanity_checking, List.all_eq_true]

theorem index_and_check_ok {e2i r2i : List (String × Nat)} {ne nr : Nat}
    {ts : List StrTriple} {d : List IdxTriple}
    (h : index_and_check e2i r2i ne nr ts = .ok d) :
    (∀ tr ∈ d, within_bounds ne nr tr) ∧ index_triples e2i r2i ts = .ok d := by
  rw [index_and_check, except_bind_ok] at h
  obtain ⟨d0, hidx, hif⟩ := h
  by_cases hc : dataset_sanity_checking d0 ne nr = true
  · rw [if_pos hc] at hif
    injection hif with h'
    subst h'
    exact ⟨(sanity_iff d0 ne nr).1 hc, hidx⟩
  · rw [if_neg hc] at hif
    exact absurd hif (by simp)

theorem index_and_check_opt_ok {e2i r2i : List (String × Nat)} {ne nr : Nat}
    {os : Option (List StrTriple)} {od : Option (List IdxTriple)}
    (h : index_and_check_opt e2i r2i ne nr os = .ok od) :
    ∀ vs, od = some vs → ∀ tr ∈ vs, within_bounds ne nr tr := by
  intro vs hvs tr htr
  cases os with
  | none =>
      rw [index_and_check_opt] at h
      injection h with h'
      rw [← h'] at hvs
      cases hvs
  | some ts =>
      rw [index_and_check_opt] at h
      cases hic : index_and_check e2i r2i ne nr ts with
      | ok d =>
          rw [hic] at h
          simp only [Except.map] at h
          injection h with h'
          rw [← h'] at hvs
          injection hvs with h''
          subst h''
          exact (index_and_check_ok hic).1 tr htr
      | error e =>
          rw [hic] at h
          exact absurd h (by simp [Except.map])

/-- Claim C6 (confirmed): every indexed triple of every split that
`KG.__init__` produces satisfies 0 ≤ s, o < num_entities and
0 ≤ p < num_relations; each indexed split is passed through the sanity
checker, whose acceptance is exactly the bound invariant, and a bound
violation makes the pipeline abort with an assertion error rather than
return the data. -/
theorem kg_indexed_splits_within_bounds :
    (∀ (minFreq : Option Nat) (addRec evalModel : Bool)
        (noiseRate : Option ℚ) (sampler : Nat → StrTriple)
        (suppliedE suppliedR : Option (List (String × Nat))) (raw : Splits)
        (out : KGResult),
        KG_init minFreq addRec evalModel noiseRate sampler suppliedE
            suppliedR raw = .ok out →
        (∀ tr ∈ out.idxTrain,
            within_bounds out.numEntities out.numRelations tr)
        ∧ (∀ vs, out.idxValid = some vs →
            ∀ tr ∈ vs, within_bounds out.numEntities out.numRelations tr)
        ∧ (∀ ts, out.idxTest = some ts →
            ∀ tr ∈ ts, within_bounds out.numEntities out.numRelations tr))
    ∧ (∀ (data : List IdxTriple) (ne nr : Nat),
        dataset_sanity_checking data ne nr = true
          ↔ ∀ tr ∈ data, within_bounds ne nr tr)
    ∧ (∀ (e2i r2i : List (String × Nat)) (ne nr : Nat)
        (ts : List StrTriple) (d : List IdxTriple),
        index_triples e2i r2i ts = .ok d →
        dataset_sanity_checking d ne nr = false →
        index_and_check e2i r2i ne nr ts = .error .assertionError) := by
  refine ⟨?_, sanity_iff, ?_⟩
  · intro minFreq addRec evalModel noiseRate sampler suppliedE suppliedR
      raw out h
    cases suppliedE with
    | none =>
        cases suppliedR with
        | none =>
            simp only [KG_init] at h
            rw [except_bind_ok] at h
            obtain ⟨d1, h1, h⟩ := h
            rw [except_bind_ok] at h
            obtain ⟨d2, h2, h⟩ := h
            rw [except_bind_ok] at h
            obtain ⟨d3, h3, h⟩ := h
            injection h with h'
            subst h'
            exact ⟨(index_and_check_ok h1).1, index_and_check_opt_ok h2,
              index_and_check_opt_ok h3⟩
        | some r2i => simp only [KG_init] at h; exact absurd h (by simp)
    | some e2i =>
        cases suppliedR with
        | none => simp only [KG_init] at h; exact absurd h (by simp)
        | some r2i =>
            simp only [KG_init] at h
            rw [except_bind_ok] at h
            obtain ⟨d1, h1, h⟩ := h
            rw [except_bind_ok] at h
            obtain ⟨d2, h2, h⟩ := h
            rw [except_bind_ok] at h
            obtain ⟨d3, h3, h⟩ := h
            injection h with h'
            subst h'
            exact ⟨(index_and_check_ok h1).1, index_and_check_opt_ok h2,
              index_and_check_opt_ok h3⟩
  · intro e2i r2i ne nr ts d hidx hbad
    rw [index_and_check, hidx]
    show (if dataset_sanity_checking d ne nr then _ else _) = _
    rw [hbad]
    rfl

/-- Claim C6, witness: a concrete run producing the single indexed triple
(0, 0, 1) with num_entities = 2 and num_relations = 1. -/
theorem kg_indexed_splits_within_bounds_witness :
    within_bounds 2 1 ⟨0, 0, 1⟩ :=
  (kg_indexed_splits_within_bounds.1 none false false none exSampler none
      none ⟨exTrainC4, none, none⟩
      ⟨[("a", 0), ("b", 1)], [("p", 0)], 2, 1, [⟨0, 0, 1⟩], none, none⟩
      rfl).1 ⟨0, 0, 1⟩ (by decide)

/-- Claim C10 (confirmed): when precomputed entity and relation vocabularies
are supplied to the KG constructor, the result does not depend on
`min_freq_for_vocab` at all, and the training set handed to `index_triples`
is the loaded (and possibly augmented) split unchanged by pruning, because
pruning runs only inside in-run vocabulary construction. -/
theorem precomputed_vocab_skips_pruning :
    ∀ (minFreq minFreq' : Option Nat) (addRec evalModel : Bool)
      (noiseRate : Option ℚ) (sampler : Nat → StrTriple)
      (e2i r2i : List (String × Nat)) (raw : Splits),
      (KG_init minFreq addRec evalModel noiseRate sampler (some e2i)
          (some r2i) raw
        = KG_init minFreq' addRec evalModel noiseRate sampler (some e2i)
          (some r2i) raw)
      ∧ (∀ out, KG_init minFreq addRec evalModel noiseRate sampler
            (some e2i) (some r2i) raw = .ok out →
          index_triples e2i r2i
              (apply_reciprical_or_noise addRec evalModel noiseRate sampler
                raw).train
            = .ok out.idxTrain) := by
  intro minFreq minFreq' addRec evalModel noiseRate sampler e2i r2i raw
  constructor
  · rfl
  · intro out h
    simp only [KG_init] at h
    rw [except_bind_ok] at h
    obtain ⟨d1, h1, h⟩ := h
    rw [except_bind_ok] at h
    obtain ⟨d2, h2, h⟩ := h
    rw [except_bind_ok] at h
    obtain ⟨d3, h3, h⟩ := h
    injection h with h'
    subst h'
    exact (index_and_check_ok h1).2

/-- Claim C10, witness: a concrete run with supplied vocabularies: two
different frequency thresholds give identical results, and the indexed
train set is the augmented input itself. -/
theorem precomputed_vocab_skips_pruning_witness :
    (KG_init (some 5) false false none exSampler (some [("a", 0), ("b", 1)])
        (some [("p", 0)]) ⟨exTrainC4, none, none⟩
      = KG_init none false false none exSampler (some [("a", 0), ("b", 1)])
        (some [("p", 0)]) ⟨exTrainC4, none, none⟩)
      ∧ index_triples [("a", 0), ("b", 1)] [("p", 0)]
          (apply_reciprical_or_noise false false none exSampler
            ⟨exTrainC4, none, none⟩).train = .ok [⟨0, 0, 1⟩] :=
  ⟨(precomputed_vocab_skips_pruning (some 5) none false false none exSampler
      [("a", 0), ("b", 1)] [("p", 0)] ⟨exTrainC4, none, none⟩).1,
    (precomputed_vocab_skips_pruning (some 5) none false false none exSampler
      [("a", 0), ("b", 1)] [("p", 0)] ⟨exTrainC4, none, none⟩).2
      ⟨[("a", 0), ("b", 1)], [("p", 0)], 2, 1, [⟨0, 0, 1⟩], none, none⟩ rfl⟩

end DiceKG
